import Mathlib

set_option maxRecDepth 100000

/-!
Shallow embedding of `update_signer.py` and `extract_params.py`
(sm_gsi_binary_rev_changer).  Byte buffers are modelled as `List Nat`
(one entry per byte), Python strings as Lean `String`, and fallible
Python code (exceptions, `return None`) as `Option`.
-/

/-- Python slice assignment `cur[pos:pos+len(repl)] = repl` on a bytearray
(the replacement has the same length as the replaced slice, so this is
`cur[:pos] ++ repl ++ cur[pos+len(repl):]`). -/
def listWrite (cur : List Nat) (pos : Nat) (repl : List Nat) : List Nat :=
  cur.take pos ++ repl ++ cur.drop (pos + repl.length)

/-- `pat` occurs in `data` at position `p` (Python `data[p:p+len(pat)] == pat`). -/
def matchAt (data pat : List Nat) (p : Nat) : Prop :=
  (data.drop p).take pat.length = pat

instance (data pat : List Nat) (p : Nat) : Decidable (matchAt data pat p) := by
  unfold matchAt; infer_instance

/-- Auxiliary scan for `bytesFind`: try positions `p, p+1, ...` while fuel lasts. -/
def findGo (data pat : List Nat) : Nat → Nat → Option Nat
  | 0, _ => none
  | fuel + 1, p => if matchAt data pat p then some p else findGo data pat fuel (p + 1)

/-- Python `data.find(pat, start)` (for nonempty `pat`): the least position
`p ≥ start` where `pat` occurs in `data`, as an `Option`. -/
def bytesFind (data pat : List Nat) (start : Nat) : Option Nat :=
  findGo data pat (data.length + 1 - start) start

/-- `bytes.split(b'\x00')[0]`: the bytes before the first NUL. -/
def takeUntilNul (bs : List Nat) : List Nat :=
  bs.takeWhile (fun b => b ≠ 0)

/-- Python `bs.decode('ascii', errors='ignore')`: keep bytes below 128 as
characters, silently drop the rest. -/
def asciiDecodeIgnore (bs : List Nat) : String :=
  ⟨(bs.filter (fun b => b < 128)).map Char.ofNat⟩

/-- The byte sequence of an ASCII Lean string (code point of each character). -/
def strBytes (s : String) : List Nat :=
  s.data.map Char.toNat

/-- Python `s.encode('ascii')`: succeeds exactly when every character is
below 128, else raises `UnicodeEncodeError` (modelled as `none`). -/
def asciiEncode (s : String) : Option (List Nat) :=
  if s.data.all (fun c => decide (c.toNat < 128)) then some (strBytes s) else none

/-- UTF-8 bytes of one character (standard 1–4 byte encoding). -/
def utf8Char (c : Char) : List Nat :=
  let n := c.toNat
  if n < 0x80 then [n]
  else if n < 0x800 then [0xC0 + n / 64, 0x80 + n % 64]
  else if n < 0x10000 then [0xE0 + n / 4096, 0x80 + (n / 64) % 64, 0x80 + n % 64]
  else [0xF0 + n / 262144, 0x80 + (n / 4096) % 64, 0x80 + (n / 64) % 64, 0x80 + n % 64]

/-- Python `s.encode('utf-8')` (total: Lean `Char` is a Unicode scalar value). -/
def utf8Encode (s : String) : List Nat :=
  s.data.flatMap utf8Char

/-- UTF-16 little-endian bytes of one character (surrogate pair above the BMP). -/
def utf16leChar (c : Char) : List Nat :=
  let n := c.toNat
  if n < 0x10000 then [n % 256, n / 256]
  else
    let m := n - 0x10000
    let hi := 0xD800 + m / 1024
    let lo := 0xDC00 + m % 1024
    [hi % 256, hi / 256, lo % 256, lo / 256]

/-- Python `s.encode('utf-16le')`. -/
def utf16leEncode (s : String) : List Nat :=
  s.data.flatMap utf16leChar

/-- The decoded `SignerVer02` record (`parse_signer_section`'s metadata dict). -/
structure SignerMetadata where
  signer_version : String
  number : String
  device_model : String
  date : String
  software_model : String
  software_version : String
deriving Repr, DecidableEq, Inhabited

/-- One decoded field: `signer_data[a:b].split(b'\x00')[0].decode('ascii', errors='ignore')`. -/
def decodeField (sd : List Nat) (a b : Nat) : String :=
  asciiDecodeIgnore (takeUntilNul ((sd.drop a).take (b - a)))

/-- `parse_signer_section` of `update_signer.py`: rejects any slice whose
length is not exactly 128 (`if not signer_data or len(signer_data) != 128`),
then decodes the six fixed field ranges; `software_version` falls back to
the sentinel `"<empty>"` when it decodes to the empty string. -/
def parse_signer_section (sd : List Nat) : Option SignerMetadata :=
  if sd.length = 128 then
    some
      { signer_version := decodeField sd 0 15
        number := decodeField sd 16 31
        device_model := decodeField sd 32 63
        date := decodeField sd 64 78
        software_model := decodeField sd 80 111
        software_version :=
          let s := decodeField sd 112 127
          if s = "" then "<empty>" else s }
  else none

/-- `parse_signer_section` of `extract_params.py`: identical fields, but the
guard is `if not signer_data or len(signer_data) < 128`, so any slice of at
least 128 bytes is accepted. -/
def parse_signer_section_extract (sd : List Nat) : Option SignerMetadata :=
  if sd.length < 128 then none
  else
    some
      { signer_version := decodeField sd 0 15
        number := decodeField sd 16 31
        device_model := decodeField sd 32 63
        date := decodeField sd 64 78
        software_model := decodeField sd 80 111
        software_version :=
          let s := decodeField sd 112 127
          if s = "" then "<empty>" else s }

/-- The marker literal `b'SignerVer02'`. -/
def signerMarker : List Nat := strBytes "SignerVer02"

/-- `find_signer_section` (`update_signer.py`): on the file's bytes, return
`None` for an empty file, `None` when the marker is absent, `None` when
fewer than 128 bytes remain from the marker's first occurrence, and
otherwise the pair of the marker position and the 128-byte slice there. -/
def find_signer_section (data : List Nat) : Option (Nat × List Nat) :=
  if data = [] then none
  else
    match bytesFind data signerMarker 0 with
    | none => none
    | some pos =>
      if pos + 128 > data.length then none
      else some (pos, (data.drop pos).take 128)

/-- The `SignerVer02` patch step of `update_single_file`
(`update_signer.py` lines 149–152): reject a replacement record that is not
exactly 128 bytes, otherwise overwrite `buffer[offset:offset+128]` with it. -/
def patch (buffer : List Nat) (offset : Nat) (newRecord : List Nat) : Option (List Nat) :=
  if newRecord.length = 128 then some (listWrite buffer offset newRecord)
  else none

/-- The signer-section path of `update_single_file` with the experimental
model replacement disabled: locate the section, reject a wrongly sized
replacement (return without writing), else write the patched buffer back;
`none` means the file is left untouched. -/
def update_single_file_signer (data : List Nat) (newSigner : Option (List Nat)) :
    Option (List Nat) :=
  match find_signer_section data, newSigner with
  | some (pos, _), some ns =>
    if ns.length = 128 then some (listWrite data pos ns) else none
  | _, _ => none

/-- The while-loop of one encoding pass of `replace_all_occurrences`:
repeatedly `pos = data.find(old_bytes, start)` — note the scan is over the
function's `data` argument, not the buffer being written — then overwrite
`new_data[pos:pos+len(new_bytes)] = new_bytes`, count the match, and resume
at `pos + len(new_bytes)`.  Fuel bounds the recursion; `data.length + 1`
suffices for nonempty patterns. -/
def passLoop (data oldB newB : List Nat) : Nat → Nat → List Nat → List Nat × Nat
  | 0, _, cur => (cur, 0)
  | fuel + 1, start, cur =>
    match bytesFind data oldB start with
    | none => (cur, 0)
    | some pos =>
      let r0 := passLoop data oldB newB fuel (pos + newB.length) (listWrite cur pos newB)
      (r0.1, r0.2 + 1)

/-- One encoding pass: skipped (`continue`) when the encoded old and new
tokens differ in byte length, else the scan loop from position 0. -/
def runPass (data cur oldB newB : List Nat) : List Nat × Nat :=
  if oldB.length = newB.length then passLoop data oldB newB (data.length + 1) 0 cur
  else (cur, 0)

/-- `replace_all_occurrences` (`update_signer.py`): no-op guard for an empty
or unchanged token pair, otherwise five encoding passes (ASCII, UTF-8,
UTF-16LE, ASCII+NUL, UTF-8+NUL) accumulating writes into one buffer and
summing the per-pass match counts; `none` models the uncaught
`UnicodeEncodeError` of the unconditional `.encode('ascii')` calls. -/
def replace_all_occurrences (data : List Nat) (old new : String) :
    Option (List Nat × Nat) :=
  if old = "" ∨ new = "" ∨ old = new then some (data, 0)
  else
    match asciiEncode old, asciiEncode new with
    | some aOld, some aNew =>
      some ([(aOld, aNew), (utf8Encode old, utf8Encode new),
             (utf16leEncode old, utf16leEncode new),
             (aOld ++ [0], aNew ++ [0]),
             (utf8Encode old ++ [0], utf8Encode new ++ [0])].foldl
        (fun acc r =>
          let st := runPass data acc.1 r.1 r.2
          (st.1, acc.2 + st.2)) (data, 0))
    | _, _ => none

/-- Modelled from the spec: the scan loop of a pass that searches the
*current* buffer state instead of the original `data` argument ("attempt a
byte-for-byte scan-and-replace pass over the *current* buffer state").
Used only to compare the code's behaviour against the spec's wording. -/
def passLoopCur (oldB newB : List Nat) : Nat → Nat → List Nat → List Nat × Nat
  | 0, _, cur => (cur, 0)
  | fuel + 1, start, cur =>
    match bytesFind cur oldB start with
    | none => (cur, 0)
    | some pos =>
      let r0 := passLoopCur oldB newB fuel (pos + newB.length) (listWrite cur pos newB)
      (r0.1, r0.2 + 1)

/-- Modelled from the spec: `replace_all` as the spec describes it, with
each of the five encoding passes scanning the current buffer state (the
results of the prior passes). -/
def replace_all_current (data : List Nat) (old new : String) :
    Option (List Nat × Nat) :=
  if old = "" ∨ new = "" ∨ old = new then some (data, 0)
  else
    match asciiEncode old, asciiEncode new with
    | some aOld, some aNew =>
      some ([(aOld, aNew), (utf8Encode old, utf8Encode new),
             (utf16leEncode old, utf16leEncode new),
             (aOld ++ [0], aNew ++ [0]),
             (utf8Encode old ++ [0], utf8Encode new ++ [0])].foldl
        (fun acc r =>
          if r.1.length = r.2.length then
            let st := passLoopCur r.1 r.2 (acc.1.length + 1) 0 acc.1
            (st.1, acc.2 + st.2)
          else acc) (data, 0))
    | _, _ => none

/-- The positions at which one pass's scan loop matches: determined by the
original `data` alone (the loop searches `data`, never the written buffer). -/
def passPositions (data pat : List Nat) : Nat → Nat → List Nat
  | 0, _ => []
  | fuel + 1, start =>
    match bytesFind data pat start with
    | none => []
    | some pos => pos :: passPositions data pat fuel (pos + pat.length)

/-- Write `newB` at each of the given positions, left to right. -/
def foldWrite (newB cur : List Nat) (ps : List Nat) : List Nat :=
  ps.foldl (fun c q => listWrite c q newB) cur

/-- The buffer effect of one pass, expressed through `passPositions`. -/
def passApply (data cur oldB newB : List Nat) : List Nat :=
  if oldB.length = newB.length then
    foldWrite newB cur (passPositions data oldB (data.length + 1) 0)
  else cur

/-- The match count of one pass, determined by `data` alone. -/
def passCnt (data oldB newB : List Nat) : Nat :=
  if oldB.length = newB.length then (passPositions data oldB (data.length + 1) 0).length
  else 0

/-- The number of all (possibly overlapping) occurrences of `pat` in `data`. -/
def occCount (data pat : List Nat) : Nat :=
  ((List.range (data.length + 1)).filter (fun p => decide (matchAt data pat p))).length

/-- `pat` never matches a shifted copy of itself: any two distinct
occurrences of `pat` in the same buffer are disjoint. -/
def NoSelfOverlap (pat : List Nat) : Prop :=
  ∀ d, d < pat.length → 0 < d →
    ∃ j, j < pat.length ∧ j + d < pat.length ∧ pat.getD (j + d) 0 ≠ pat.getD j 0

/-- For every alignment of a `Q`-occurrence at or after a `P`-occurrence
(shift `s = q - p`): either the two patterns conflict somewhere on the
overlap (so they cannot both occur there), or their replacements agree on
the whole overlap. -/
def CompatA (P Pnew Q Qnew : List Nat) : Prop :=
  ∀ s, s < P.length →
    (∃ j, j < P.length ∧ s ≤ j ∧ j - s < Q.length ∧ P.getD j 0 ≠ Q.getD (j - s) 0) ∨
    (∀ j, j < P.length → s ≤ j → j - s < Q.length → Pnew.getD j 0 = Qnew.getD (j - s) 0)

/-- For every alignment of a `Q`-occurrence strictly before a
`P`-occurrence (shift `t = p - q`): either the two patterns conflict
somewhere on the overlap, or their replacements agree on the whole
overlap. -/
def CompatB (P Pnew Q Qnew : List Nat) : Prop :=
  ∀ t, t < Q.length → 0 < t →
    (∃ j, j < P.length ∧ j + t < Q.length ∧ P.getD j 0 ≠ Q.getD (j + t) 0) ∨
    (∀ j, j < P.length → j + t < Q.length → Pnew.getD j 0 = Qnew.getD (j + t) 0)

instance (pat : List Nat) : Decidable (NoSelfOverlap pat) := by
  unfold NoSelfOverlap; infer_instance

instance (P Pnew Q Qnew : List Nat) : Decidable (CompatA P Pnew Q Qnew) := by
  unfold CompatA; infer_instance

instance (P Pnew Q Qnew : List Nat) : Decidable (CompatB P Pnew Q Qnew) := by
  unfold CompatB; infer_instance

/-- The six decoded fields expected from a record starting at offset `p` of
`data`: each is the NUL-truncated, ASCII-filtered field range, with the
`"<empty>"` sentinel for a blank `software_version`. -/
def expectedMetadata (data : List Nat) (p : Nat) : SignerMetadata :=
  { signer_version := asciiDecodeIgnore (takeUntilNul ((data.drop p).take 15))
    number := asciiDecodeIgnore (takeUntilNul ((data.drop (p + 16)).take 15))
    device_model := asciiDecodeIgnore (takeUntilNul ((data.drop (p + 32)).take 31))
    date := asciiDecodeIgnore (takeUntilNul ((data.drop (p + 64)).take 14))
    software_model := asciiDecodeIgnore (takeUntilNul ((data.drop (p + 80)).take 31))
    software_version :=
      let s := asciiDecodeIgnore (takeUntilNul ((data.drop (p + 112)).take 15))
      if s = "" then "<empty>" else s }

/-- Concrete buffer for C4: one marker at offset 0, a `number` field
containing a non-ASCII byte (`[65, 200, 66]`), 139 bytes in total. -/
def c4buf : List Nat := signerMarker ++ List.replicate 5 0 ++ [65, 200, 66] ++ List.replicate 120 0

/-- Concrete all-zero-payload buffer for C4's witness. -/
def c4okbuf : List Nat := signerMarker ++ List.replicate 128 0

/-- Concrete buffer for C3's counterexample: the old token in ASCII
followed by one NUL byte. -/
def c3buf : List Nat := strBytes "F711BXXS8HXF2" ++ [0]

/-- Concrete buffer for C3's witness: an ASCII occurrence at 0 (with a NUL
terminator) and a UTF-16LE occurrence at 14. -/
def c3wit : List Nat := strBytes "F711BXXS8HXF2" ++ [0] ++ utf16leEncode "F711BXXS8HXF2"

-- Device-model detection (`detect_device_models_in_file`).

/-- `[A-Z]` on a byte. -/
def isUpperB (b : Nat) : Bool := decide (65 ≤ b) && decide (b ≤ 90)

/-- `[0-9]` on a byte. -/
def isDigitB (b : Nat) : Bool := decide (48 ≤ b) && decide (b ≤ 57)

/-- `[A-Z0-9]` on a byte. -/
def isUpperDigitB (b : Nat) : Bool := isUpperB b || isDigitB b

/-- Length of the regex match `[A-Z][0-9]{3}[A-Z]{2}[A-Z0-9]{6,12}` at
position `p` of `data`, if any: the fixed six-byte head, then a greedy run
of 6–12 alphanumeric bytes (nothing follows the quantifier, so no
backtracking is possible). -/
def regexMatchLen (data : List Nat) (p : Nat) : Option Nat :=
  if isUpperB (data.getD p 0) && isDigitB (data.getD (p + 1) 0) &&
     isDigitB (data.getD (p + 2) 0) && isDigitB (data.getD (p + 3) 0) &&
     isUpperB (data.getD (p + 4) 0) && isUpperB (data.getD (p + 5) 0) then
    let run := min (((data.drop (p + 6)).takeWhile isUpperDigitB).length) 12
    if 6 ≤ run then some (6 + run) else none
  else none

/-- `re.findall` scan: left to right, non-overlapping — resume after each
match, advance by one byte on failure. -/
def findallGo (data : List Nat) : Nat → Nat → List (List Nat)
  | 0, _ => []
  | fuel + 1, p =>
    if p < data.length then
      match regexMatchLen data p with
      | some L => ((data.drop p).take L) :: findallGo data fuel (p + L)
      | none => findallGo data fuel (p + 1)
    else []

/-- Lexicographic `≤` on byte lists (Python string comparison restricted to
the ASCII strings produced by the pattern scan). -/
def lexLeB : List Nat → List Nat → Bool
  | [], _ => true
  | _ :: _, [] => false
  | a :: as, b :: bs => if a < b then true else if b < a then false else lexLeB as bs

/-- The ordering used by the model sort: `lexLeB` on the strings' bytes. -/
def strR (a b : String) : Prop := lexLeB (strBytes a) (strBytes b) = true

/-- Insertion into a `lexLeB`-sorted list of strings. -/
def insertStr (x : String) : List String → List String
  | [] => [x]
  | y :: ys => if lexLeB (strBytes x) (strBytes y) then x :: y :: ys else y :: insertStr x ys

/-- Insertion sort by `lexLeB`; with `List.dedup` this models Python's
`sorted(list(set(...)))` (the sorted list of the distinct candidates). -/
def sortStrs : List String → List String
  | [] => []
  | x :: xs => insertStr x (sortStrs xs)

/-- The candidate device models of `detect_device_models_in_file`: pattern
matches of length 10–20, decoded, deduplicated and sorted. -/
def detectModels (data : List Nat) : List String :=
  let ms := findallGo data (data.length + 1) 0
  let kept := ms.filter (fun m => decide (10 ≤ m.length) && decide (m.length ≤ 20))
  sortStrs ((kept.map asciiDecodeIgnore).dedup)

/-- The `device_model` signal extracted from the `SignerVer02` section
(`None` when the section is missing or the field is blank; decode failures
are swallowed). -/
def signerModel (data : List Nat) : Option String :=
  match find_signer_section data with
  | some (_, sd) =>
    match parse_signer_section sd with
    | some md => if md.device_model = "" then none else some md.device_model
    | none => none
  | none => none

/-- The tier-1 guard `preferred_model and preferred_model in models`:
the preferred model when it is truthy (nonempty) and a candidate. -/
def prefHitOf (models : List String) (preferred : Option String) : Option String :=
  match preferred with
  | some p => if decide (p ≠ "") && decide (p ∈ models) then some p else none
  | none => none

/-- `detect_device_models_in_file` (`update_signer.py`): the candidate list
reordered by the three-tier priority — preferred model if among the
candidates, else the record's device model if among the candidates, else
the sorted candidates as they are (empty when the scan found nothing). -/
def detect_device_models_in_file (data : List Nat) (preferred : Option String) :
    List String :=
  let models := detectModels data
  match prefHitOf models preferred with
  | some p => p :: models.filter (fun m => decide (m ≠ p))
  | none =>
    match signerModel data with
    | some sm =>
      if decide (sm ∈ models) then sm :: models.filter (fun m => decide (m ≠ sm))
      else if models.isEmpty then [] else models
    | none => if models.isEmpty then [] else models

/-- Concrete buffer for C9's witness: exactly one pattern match. -/
def c9buf : List Nat := strBytes "A123BC000000"

-- ### Basic lemmas about `listWrite`

theorem listWrite_length {cur repl : List Nat} {pos : Nat}
    (h : pos + repl.length ≤ cur.length) :
    (listWrite cur pos repl).length = cur.length := by
  unfold listWrite
  simp only [List.length_append, List.length_take, List.length_drop]
  omega

theorem listWrite_getD_mid {cur repl : List Nat} {pos i : Nat}
    (hb : pos + repl.length ≤ cur.length) (h1 : pos ≤ i) (h2 : i < pos + repl.length) :
    (listWrite cur pos repl).getD i 0 = repl.getD (i - pos) 0 := by
  unfold listWrite
  have htl : (cur.take pos).length = pos := by
    simp only [List.length_take]; omega
  rw [List.getD_eq_getElem?_getD, List.getD_eq_getElem?_getD, List.append_assoc,
    List.getElem?_append_right (by omega),
    List.getElem?_append_left (by rw [htl]; omega), htl]

theorem listWrite_getD_lt {cur repl : List Nat} {pos i : Nat}
    (hb : pos + repl.length ≤ cur.length) (h : i < pos) :
    (listWrite cur pos repl).getD i 0 = cur.getD i 0 := by
  unfold listWrite
  have htl : (cur.take pos).length = pos := by
    simp only [List.length_take]; omega
  rw [List.getD_eq_getElem?_getD, List.getD_eq_getElem?_getD, List.append_assoc,
    List.getElem?_append_left (by rw [htl]; omega),
    List.getElem?_take_of_lt h]

theorem listWrite_getD_ge {cur repl : List Nat} {pos i : Nat}
    (hb : pos + repl.length ≤ cur.length) (h : pos + repl.length ≤ i) :
    (listWrite cur pos repl).getD i 0 = cur.getD i 0 := by
  unfold listWrite
  have htl : (cur.take pos).length = pos := by
    simp only [List.length_take]; omega
  have hlen2 : ((cur.take pos ++ repl)).length = pos + repl.length := by
    simp only [List.length_append, htl]
  rw [List.getD_eq_getElem?_getD, List.getD_eq_getElem?_getD,
    List.getElem?_append_right (by rw [hlen2]; omega),
    List.getElem?_drop, hlen2]
  congr 2
  omega

theorem listWrite_idem {cur repl : List Nat} {pos : Nat}
    (h : pos ≤ cur.length) :
    listWrite (listWrite cur pos repl) pos repl = listWrite cur pos repl := by
  unfold listWrite
  have htl : (cur.take pos).length = pos := by
    simp only [List.length_take]; omega
  have hto : (cur.take pos ++ repl).length = pos + repl.length := by
    simp only [List.length_append, htl]
  have h1 : (cur.take pos ++ repl ++ cur.drop (pos + repl.length)).take pos = cur.take pos := by
    rw [List.append_assoc, List.take_append_eq_append_take, htl, Nat.sub_self,
      List.take_zero, List.append_nil, List.take_take, min_self]
  have h2 : (cur.take pos ++ repl ++ cur.drop (pos + repl.length)).drop (pos + repl.length) =
      cur.drop (pos + repl.length) := List.drop_left' hto
  rw [h1, h2]

/-- C5: for every buffer, offset with `offset + 128 ≤ length`, and 128-byte
record, `patch` succeeds with a buffer of identical length whose bytes in
`[offset, offset+128)` are the record's and whose other bytes are unchanged. -/
theorem patch_frame (buffer : List Nat) (offset : Nat) (rec : List Nat)
    (hr : rec.length = 128) (ho : offset + 128 ≤ buffer.length) :
    patch buffer offset rec = some (listWrite buffer offset rec) ∧
    (listWrite buffer offset rec).length = buffer.length ∧
    (∀ j, j < 128 → (listWrite buffer offset rec).getD (offset + j) 0 = rec.getD j 0) ∧
    (∀ i, i < offset ∨ offset + 128 ≤ i →
      (listWrite buffer offset rec).getD i 0 = buffer.getD i 0) := by
  have hb : offset + rec.length ≤ buffer.length := by omega
  refine ⟨by simp [patch, hr], listWrite_length hb, ?_, ?_⟩
  · intro j hj
    have := @listWrite_getD_mid buffer rec offset (offset + j) hb (by omega) (by omega)
    simpa using this
  · intro i hi
    rcases hi with hlt | hge
    · exact listWrite_getD_lt hb hlt
    · exact listWrite_getD_ge hb (by omega)

/-- C5 witness: a concrete instance of `patch_frame`. -/
theorem patch_frame_witness :
    patch (List.replicate 130 5) 1 (List.replicate 128 9) =
      some (listWrite (List.replicate 130 5) 1 (List.replicate 128 9)) ∧
    (listWrite (List.replicate 130 5) 1 (List.replicate 128 9)).length = 130 ∧
    (listWrite (List.replicate 130 5) 1 (List.replicate 128 9)).getD 1 0 = 9 ∧
    (listWrite (List.replicate 130 5) 1 (List.replicate 128 9)).getD 0 0 = 5 ∧
    (listWrite (List.replicate 130 5) 1 (List.replicate 128 9)).getD 129 0 = 5 := by
  have h := patch_frame (List.replicate 130 5) 1 (List.replicate 128 9)
    (by decide) (by decide)
  exact ⟨h.1, h.2.1.trans (by decide),
    (h.2.2.1 0 (by omega)).trans (by decide),
    (h.2.2.2 0 (Or.inl (by omega))).trans (by decide),
    (h.2.2.2 129 (Or.inr (by omega))).trans (by decide)⟩

/-- C6: `patch` fails whenever the replacement record is not exactly
128 bytes, and on that failure the whole update is a no-op: the
`update_single_file` flow produces no output buffer, so nothing is written. -/
theorem patch_size_guard (buffer : List Nat) (offset : Nat) (rec : List Nat)
    (h : rec.length ≠ 128) :
    patch buffer offset rec = none ∧
    update_single_file_signer buffer (some rec) = none := by
  constructor
  · simp [patch, h]
  · unfold update_single_file_signer
    cases hf : find_signer_section buffer with
    | none => rfl
    | some v => simp [h]

/-- C6 witness: a concrete instance of `patch_size_guard`. -/
theorem patch_size_guard_witness :
    patch [1, 2, 3] 0 [9] = none ∧
    update_single_file_signer [1, 2, 3] (some [9]) = none :=
  patch_size_guard [1, 2, 3] 0 [9] (by decide)

/-- C8: `patch` is idempotent: with a valid offset and a 128-byte record,
patching the patched buffer again yields the same buffer. -/
theorem patch_idem (buffer : List Nat) (offset : Nat) (rec : List Nat)
    (hr : rec.length = 128) (ho : offset + 128 ≤ buffer.length) :
    patch buffer offset rec = some (listWrite buffer offset rec) ∧
    patch (listWrite buffer offset rec) offset rec = some (listWrite buffer offset rec) := by
  refine ⟨by simp [patch, hr], ?_⟩
  simp only [patch, hr, if_pos]
  rw [listWrite_idem (by omega)]

/-- C8 witness: a concrete instance of `patch_idem`. -/
theorem patch_idem_witness :
    patch (List.replicate 128 3) 0 (List.replicate 128 4) =
      some (listWrite (List.replicate 128 3) 0 (List.replicate 128 4)) ∧
    patch (listWrite (List.replicate 128 3) 0 (List.replicate 128 4)) 0
        (List.replicate 128 4) =
      some (listWrite (List.replicate 128 3) 0 (List.replicate 128 4)) :=
  patch_idem (List.replicate 128 3) 0 (List.replicate 128 4) (by decide) (by decide)

-- ### Lemmas about `matchAt`, `findGo` and `bytesFind`

theorem matchAt_bound {data pat : List Nat} {q : Nat}
    (hp : pat ≠ []) (h : matchAt data pat q) : q + pat.length ≤ data.length := by
  have hl := congrArg List.length h
  simp only [List.length_take, List.length_drop] at hl
  have h1 : min pat.length (data.length - q) ≤ data.length - q := Nat.min_le_right _ _
  rw [hl] at h1
  have h0 : 0 < pat.length := List.length_pos.mpr hp
  omega

theorem findGo_none {data pat : List Nat} :
    ∀ fuel p, findGo data pat fuel p = none →
      ∀ q, p ≤ q → q < p + fuel → ¬ matchAt data pat q := by
  intro fuel
  induction fuel with
  | zero => intro p _ q h1 h2; omega
  | succ n ih =>
    intro p h q h1 h2 hm
    unfold findGo at h
    by_cases hp : matchAt data pat p
    · rw [if_pos hp] at h; exact Option.noConfusion h
    · rw [if_neg hp] at h
      rcases Nat.eq_or_lt_of_le h1 with rfl | hlt
      · exact hp hm
      · exact ih (p + 1) h q hlt (by omega) hm

theorem findGo_some {data pat : List Nat} :
    ∀ fuel p r, findGo data pat fuel p = some r →
      p ≤ r ∧ matchAt data pat r ∧ ∀ q, p ≤ q → q < r → ¬ matchAt data pat q := by
  intro fuel
  induction fuel with
  | zero => intro p r h; exact Option.noConfusion h
  | succ n ih =>
    intro p r h
    unfold findGo at h
    by_cases hp : matchAt data pat p
    · rw [if_pos hp] at h
      obtain rfl : p = r := Option.some.inj h
      exact ⟨le_refl _, hp, fun q h1 h2 _ => by omega⟩
    · rw [if_neg hp] at h
      obtain ⟨ha, hb, hc⟩ := ih (p + 1) r h
      refine ⟨by omega, hb, fun q h1 h2 hm => ?_⟩
      rcases Nat.eq_or_lt_of_le h1 with rfl | hlt
      · exact hp hm
      · exact hc q hlt h2 hm

theorem bytesFind_some {data pat : List Nat} {start r : Nat}
    (h : bytesFind data pat start = some r) :
    start ≤ r ∧ matchAt data pat r ∧ ∀ q, start ≤ q → q < r → ¬ matchAt data pat q :=
  findGo_some _ _ _ h

theorem bytesFind_none {data pat : List Nat} {start : Nat} (hp : pat ≠ [])
    (h : bytesFind data pat start = none) :
    ∀ q, start ≤ q → ¬ matchAt data pat q := by
  intro q h1 hm
  have hb := matchAt_bound hp hm
  have h0 : 0 < pat.length := List.length_pos.mpr hp
  by_cases h2 : q < start + (data.length + 1 - start)
  · exact findGo_none _ _ h q h1 h2 hm
  · omega

/-- C2 (amended): the update tool's decoder fails exactly when the slice's
length differs from 128, and the extraction tool's decoder fails exactly
when the slice is shorter than 128 bytes; neither ever fails because of the
slice's content. -/
theorem parse_size_characterization (sd : List Nat) :
    (parse_signer_section sd = none ↔ sd.length ≠ 128) ∧
    (parse_signer_section_extract sd = none ↔ sd.length < 128) := by
  constructor
  · unfold parse_signer_section
    by_cases h : sd.length = 128
    · rw [if_pos h]; simp [h]
    · rw [if_neg h]; simp [h]
  · unfold parse_signer_section_extract
    by_cases h : sd.length < 128
    · rw [if_pos h]; simp [h]
    · rw [if_neg h]; simp [h]

/-- C2 counterexample: a 129-byte slice is not 128 bytes long, yet the
extraction tool's decoder accepts it, contradicting the claim that every
slice whose length differs from 128 is rejected. -/
theorem parse_extract_accepts_long_slice :
    (List.replicate 129 0).length ≠ 128 ∧
    parse_signer_section_extract (List.replicate 129 0) ≠ none := by
  refine ⟨by decide, ?_⟩
  unfold parse_signer_section_extract
  rw [if_neg (by decide)]
  simp

theorem find_no_marker {data : List Nat}
    (habs : ¬ ∃ p, p < data.length ∧ matchAt data signerMarker p) :
    find_signer_section data = none := by
  have hm : signerMarker ≠ [] := by decide
  unfold find_signer_section
  by_cases hd : data = []
  · rw [if_pos hd]
  · rw [if_neg hd]
    cases hf : bytesFind data signerMarker 0 with
    | none => rfl
    | some r =>
      obtain ⟨-, hr, -⟩ := bytesFind_some hf
      have hb := matchAt_bound hm hr
      have hml : signerMarker.length = 11 := by decide
      exact absurd ⟨r, by omega, hr⟩ habs

theorem find_marker_first {data : List Nat} {p : Nat}
    (hp : matchAt data signerMarker p)
    (hfirst : ∀ q, q < p → ¬ matchAt data signerMarker q) :
    bytesFind data signerMarker 0 = some p := by
  have hm : signerMarker ≠ [] := by decide
  cases hf : bytesFind data signerMarker 0 with
  | none => exact absurd hp (bytesFind_none hm hf p (Nat.zero_le _))
  | some r =>
    obtain ⟨-, hr, hmin⟩ := bytesFind_some hf
    rcases Nat.lt_trichotomy r p with h1 | h1 | h1
    · exact absurd hr (hfirst r h1)
    · rw [h1]
    · exact absurd hp (hmin p (Nat.zero_le _) h1)

theorem find_nonempty {data : List Nat} {p : Nat}
    (hp : matchAt data signerMarker p) : data ≠ [] := by
  have hb := matchAt_bound (by decide : signerMarker ≠ []) hp
  have hml : signerMarker.length = 11 := by decide
  intro h
  rw [h] at hb
  simp [hml] at hb

theorem find_too_short {data : List Nat} {p : Nat}
    (hp : matchAt data signerMarker p)
    (hfirst : ∀ q, q < p → ¬ matchAt data signerMarker q)
    (hshort : data.length < p + 128) :
    find_signer_section data = none := by
  unfold find_signer_section
  rw [if_neg (find_nonempty hp), find_marker_first hp hfirst]
  show (if p + 128 > data.length then none else some (p, (data.drop p).take 128)) = none
  rw [if_pos (by omega : p + 128 > data.length)]

theorem find_success {data : List Nat} {p : Nat}
    (hp : matchAt data signerMarker p)
    (hfirst : ∀ q, q < p → ¬ matchAt data signerMarker q)
    (hlong : p + 128 ≤ data.length) :
    find_signer_section data = some (p, (data.drop p).take 128) := by
  unfold find_signer_section
  rw [if_neg (find_nonempty hp), find_marker_first hp hfirst]
  show (if p + 128 > data.length then none else some (p, (data.drop p).take 128)) =
    some (p, (data.drop p).take 128)
  rw [if_neg (by omega : ¬ p + 128 > data.length)]

/-- C7: `find_signer_section` returns `none` on every buffer without the
marker; on a buffer whose first marker occurrence is at `p` it returns
`none` when fewer than 128 bytes remain from `p`, and otherwise the pair of
`p` and the 128-byte slice starting at `p`. -/
theorem find_signer_characterization (data : List Nat) :
    ((¬ ∃ p, p < data.length ∧ matchAt data signerMarker p) →
      find_signer_section data = none) ∧
    (∀ p, matchAt data signerMarker p →
      (∀ q, q < p → ¬ matchAt data signerMarker q) →
      (data.length < p + 128 → find_signer_section data = none) ∧
      (p + 128 ≤ data.length →
        find_signer_section data = some (p, (data.drop p).take 128))) :=
  ⟨find_no_marker,
   fun _ hp hfirst =>
    ⟨fun hshort => find_too_short hp hfirst hshort,
     fun hlong => find_success hp hfirst hlong⟩⟩

/-- C7 witness: concrete instances of `find_signer_characterization`
(no marker, marker too close to the end, marker with room). -/
theorem find_signer_characterization_witness :
    find_signer_section [1, 2, 3] = none ∧
    find_signer_section signerMarker = none ∧
    find_signer_section (signerMarker ++ List.replicate 117 0) =
      some (0, ((signerMarker ++ List.replicate 117 0).drop 0).take 128) := by
  refine ⟨(find_signer_characterization [1, 2, 3]).1 (by decide), ?_, ?_⟩
  · exact ((find_signer_characterization signerMarker).2 0 (by decide)
      (fun q hq => absurd hq (by omega))).1 (by decide)
  · exact ((find_signer_characterization (signerMarker ++ List.replicate 117 0)).2 0
      (by decide) (fun q hq => absurd hq (by omega))).2 (by decide)

-- ### C10: non-ASCII tokens make `replace_all_occurrences` raise

theorem asciiEncode_none {s : String} (h : ∃ c ∈ s.data, 128 ≤ c.toNat) :
    asciiEncode s = none := by
  have hall : ¬ (s.data.all (fun c => decide (c.toNat < 128)) = true) := by
    intro hall
    obtain ⟨c, hc, h128⟩ := h
    have hd := List.all_eq_true.mp hall c hc
    simp only [decide_eq_true_eq] at hd
    omega
  unfold asciiEncode
  rw [if_neg hall]

/-- C10: for nonempty, distinct tokens, a character outside the ASCII range
in either token makes the unconditional `.encode('ascii')` step fail, so
`replace_all_occurrences` errors out instead of returning a result — the
empty/equal-token guard does not protect against this. -/
theorem replace_all_nonascii (data : List Nat) (old new : String)
    (h1 : old ≠ "") (h2 : new ≠ "") (h3 : old ≠ new)
    (h4 : (∃ c ∈ old.data, 128 ≤ c.toNat) ∨ (∃ c ∈ new.data, 128 ≤ c.toNat)) :
    replace_all_occurrences data old new = none := by
  unfold replace_all_occurrences
  rw [if_neg (by push_neg; exact ⟨h1, h2, h3⟩)]
  rcases h4 with h | h
  · rw [asciiEncode_none h]
  · cases ho : asciiEncode old with
    | none => cases hn : asciiEncode new <;> rfl
    | some a => rw [asciiEncode_none h]

/-- C10 witness: a concrete instance of `replace_all_nonascii`. -/
theorem replace_all_nonascii_witness :
    replace_all_occurrences [] "é" "x" = none :=
  replace_all_nonascii [] "é" "x" (by decide) (by decide) (by decide) (Or.inl (by decide))

-- ### C4: locate-then-decode and the decoded field contents

theorem slice_slice (data : List Nat) (p a k : Nat) (h : a + k ≤ 128) :
    (((data.drop p).take 128).drop a).take k = (data.drop (p + a)).take k := by
  rw [List.drop_take, List.take_take, List.drop_drop,
    min_eq_left (by omega : k ≤ 128 - a)]

theorem parse_at_offset (data : List Nat) (p : Nat) (hlen : p + 128 ≤ data.length) :
    parse_signer_section ((data.drop p).take 128) = some (expectedMetadata data p) := by
  have hslice : ((data.drop p).take 128).length = 128 := by
    simp only [List.length_take, List.length_drop]; omega
  have e1 : decodeField ((data.drop p).take 128) 0 15 =
      asciiDecodeIgnore (takeUntilNul ((data.drop p).take 15)) := by
    unfold decodeField
    norm_num
    rw [List.take_take, min_eq_left (by omega : (15 : Nat) ≤ 128)]
  have e2 : decodeField ((data.drop p).take 128) 16 31 =
      asciiDecodeIgnore (takeUntilNul ((data.drop (p + 16)).take 15)) := by
    unfold decodeField
    norm_num
    rw [slice_slice data p 16 15 (by omega)]
  have e3 : decodeField ((data.drop p).take 128) 32 63 =
      asciiDecodeIgnore (takeUntilNul ((data.drop (p + 32)).take 31)) := by
    unfold decodeField
    norm_num
    rw [slice_slice data p 32 31 (by omega)]
  have e4 : decodeField ((data.drop p).take 128) 64 78 =
      asciiDecodeIgnore (takeUntilNul ((data.drop (p + 64)).take 14)) := by
    unfold decodeField
    norm_num
    rw [slice_slice data p 64 14 (by omega)]
  have e5 : decodeField ((data.drop p).take 128) 80 111 =
      asciiDecodeIgnore (takeUntilNul ((data.drop (p + 80)).take 31)) := by
    unfold decodeField
    norm_num
    rw [slice_slice data p 80 31 (by omega)]
  have e6 : decodeField ((data.drop p).take 128) 112 127 =
      asciiDecodeIgnore (takeUntilNul ((data.drop (p + 112)).take 15)) := by
    unfold decodeField
    norm_num
    rw [slice_slice data p 112 15 (by omega)]
  unfold parse_signer_section
  rw [if_pos hslice, e1, e2, e3, e4, e5, e6]
  rfl

/-- C4 (amended): on a buffer whose unique marker occurrence at `p` has at
least 128 bytes from `p` to the end, locate succeeds with the 128-byte
slice at `p` and decode succeeds; every decoded field equals the bytes of
its range truncated at the first NUL with non-ASCII bytes removed
(`software_version` rendered as the `"<empty>"` sentinel when blank). -/
theorem locate_decode (data : List Nat) (p : Nat)
    (hp : matchAt data signerMarker p)
    (huniq : ∀ q, q < data.length → matchAt data signerMarker q → q = p)
    (hlen : p + 128 ≤ data.length) :
    find_signer_section data = some (p, (data.drop p).take 128) ∧
    parse_signer_section ((data.drop p).take 128) = some (expectedMetadata data p) := by
  have hfirst : ∀ q, q < p → ¬ matchAt data signerMarker q := by
    intro q hq hm
    have hb := matchAt_bound (by decide : signerMarker ≠ []) hm
    have hml : signerMarker.length = 11 := by decide
    have := huniq q (by omega) hm
    omega
  exact ⟨find_success hp hfirst hlen, parse_at_offset data p hlen⟩

/-- C4 witness: a concrete instance of `locate_decode`. -/
theorem locate_decode_witness :
    find_signer_section c4okbuf = some (0, (c4okbuf.drop 0).take 128) ∧
    parse_signer_section ((c4okbuf.drop 0).take 128) = some (expectedMetadata c4okbuf 0) :=
  locate_decode c4okbuf 0 (by decide) (by decide) (by decide)

/-- C4 counterexample: `c4buf` contains exactly one marker occurrence
(at 0) with at least 128 bytes following, locate-then-decode succeeds, the
`number` field range truncated at the first NUL is `[65, 200, 66]`, yet the
decoded string is `"AB"` (bytes `[65, 66]`), which is not a prefix of that
truncated range. -/
theorem decoded_field_not_a_prefix :
    matchAt c4buf signerMarker 0 ∧
    (∀ q, q < c4buf.length → matchAt c4buf signerMarker q → q = 0) ∧
    128 ≤ c4buf.length ∧
    find_signer_section c4buf = some (0, (c4buf.drop 0).take 128) ∧
    (parse_signer_section ((c4buf.drop 0).take 128)).map (fun md => md.number) =
      some "AB" ∧
    takeUntilNul ((c4buf.drop 16).take 15) = [65, 200, 66] ∧
    (takeUntilNul ((c4buf.drop 16).take 15)).take (strBytes "AB").length ≠
      strBytes "AB" := by
  refine ⟨by decide, by decide, by decide, by decide, by decide, by decide, by decide⟩

-- ### C1: the five passes scan the original buffer, in a fixed order

theorem passLoop_eq (data oldB newB : List Nat) (hlen : oldB.length = newB.length) :
    ∀ fuel start cur,
      passLoop data oldB newB fuel start cur =
        (foldWrite newB cur (passPositions data oldB fuel start),
         (passPositions data oldB fuel start).length) := by
  intro fuel
  induction fuel with
  | zero => intro start cur; rfl
  | succ n ih =>
    intro start cur
    unfold passLoop passPositions
    cases hf : bytesFind data oldB start with
    | none => rfl
    | some pos =>
      simp only []
      rw [ih, ← hlen]
      simp [foldWrite]

theorem runPass_eq (data cur oldB newB : List Nat) :
    runPass data cur oldB newB = (passApply data cur oldB newB, passCnt data oldB newB) := by
  unfold runPass passApply passCnt
  by_cases h : oldB.length = newB.length
  · rw [if_pos h, if_pos h, if_pos h, passLoop_eq data oldB newB h]
  · rw [if_neg h, if_neg h, if_neg h]

/-- C1 (amended): for nonempty, distinct, ASCII-encodable tokens,
`replace_all_occurrences` runs its five encoding passes in the fixed order
ASCII, UTF-8, UTF-16LE, ASCII+NUL, UTF-8+NUL — but each pass scans the
*original* buffer (`passApply`/`passCnt` take their match positions from
`data`), not the current buffer state, while the writes of all passes
accumulate into one output buffer; the count is the sum of the per-pass
counts, each determined by the original buffer alone. -/
theorem replace_all_passes (data : List Nat) (old new : String)
    (h1 : old ≠ "") (h2 : new ≠ "") (h3 : old ≠ new)
    (aOld aNew : List Nat)
    (hao : asciiEncode old = some aOld) (han : asciiEncode new = some aNew) :
    replace_all_occurrences data old new =
      some
        (passApply data
          (passApply data
            (passApply data
              (passApply data
                (passApply data data aOld aNew)
                (utf8Encode old) (utf8Encode new))
              (utf16leEncode old) (utf16leEncode new))
            (aOld ++ [0]) (aNew ++ [0]))
          (utf8Encode old ++ [0]) (utf8Encode new ++ [0]),
         passCnt data aOld aNew + passCnt data (utf8Encode old) (utf8Encode new) +
           passCnt data (utf16leEncode old) (utf16leEncode new) +
           passCnt data (aOld ++ [0]) (aNew ++ [0]) +
           passCnt data (utf8Encode old ++ [0]) (utf8Encode new ++ [0])) := by
  unfold replace_all_occurrences
  rw [if_neg (by push_neg; exact ⟨h1, h2, h3⟩), hao, han]
  simp only [List.foldl, runPass_eq, Nat.zero_add]

/-- C1 witness: a concrete instance of `replace_all_passes`. -/
theorem replace_all_passes_witness :
    replace_all_occurrences [65, 66] "AB" "BA" = some ([66, 65], 2) :=
  (replace_all_passes [65, 66] "AB" "BA" (by decide) (by decide) (by decide)
    [65, 66] [66, 65] (by decide) (by decide)).trans (by decide)

/-- C1 counterexample: on the buffer `b"AB"` with tokens `"AB" → "BA"`, the
code replaces once but reports count 2 (the UTF-8 pass re-finds the pattern
in the original buffer), while the spec-modelled current-state semantics
(`replace_all_current`) reports count 1 — so the passes do not see the
replacements already made by prior passes. -/
theorem replace_all_not_current_state :
    replace_all_occurrences [65, 66] "AB" "BA" = some ([66, 65], 2) ∧
    replace_all_current [65, 66] "AB" "BA" = some ([66, 65], 1) ∧
    replace_all_occurrences [65, 66] "AB" "BA" ≠ replace_all_current [65, 66] "AB" "BA" :=
  ⟨by decide, by decide, by decide⟩

-- ### C3 infrastructure: matches, non-overlap, and regional effects of writes

theorem matchAt_getD {data pat : List Nat} {p : Nat} (h : matchAt data pat p) :
    ∀ j, j < pat.length → data.getD (p + j) 0 = pat.getD j 0 := by
  intro j hj
  have hcong := congrArg (fun l => l.getD j 0) h
  simp only [List.getD_eq_getElem?_getD, List.getElem?_take_of_lt hj,
    List.getElem?_drop] at hcong
  simp only [List.getD_eq_getElem?_getD]
  exact hcong

theorem no_self_overlap_disjoint {data pat : List Nat} (hns : NoSelfOverlap pat)
    {p q : Nat} (hp : matchAt data pat p) (hq : matchAt data pat q)
    (hlt : p < q) (hover : q < p + pat.length) : False := by
  obtain ⟨j, hj1, hj2, hj3⟩ := hns (q - p) (by omega) (by omega)
  have e1 := matchAt_getD hp (j + (q - p)) hj2
  have e2 := matchAt_getD hq j (by omega)
  have harith : p + (j + (q - p)) = q + j := by omega
  rw [harith] at e1
  exact hj3 (e1.symm.trans e2)

theorem passPositions_sound {data pat : List Nat} :
    ∀ fuel start q, q ∈ passPositions data pat fuel start →
      start ≤ q ∧ matchAt data pat q := by
  intro fuel
  induction fuel with
  | zero => intro start q h; exact absurd h (List.not_mem_nil q)
  | succ n ih =>
    intro start q h
    unfold passPositions at h
    cases hf : bytesFind data pat start with
    | none => rw [hf] at h; exact absurd h (List.not_mem_nil q)
    | some pos =>
      rw [hf] at h
      obtain ⟨hsp, hpm, -⟩ := bytesFind_some hf
      rcases List.mem_cons.mp h with rfl | h
      · exact ⟨hsp, hpm⟩
      · obtain ⟨h1, h2⟩ := ih (pos + pat.length) q h
        exact ⟨by omega, h2⟩

theorem passPositions_complete {data pat : List Nat} (hne : pat ≠ [])
    (hns : NoSelfOverlap pat) :
    ∀ fuel start q, data.length < fuel + start → start ≤ q → matchAt data pat q →
      q ∈ passPositions data pat fuel start := by
  have h0 : 0 < pat.length := List.length_pos.mpr hne
  intro fuel
  induction fuel with
  | zero =>
    intro start q hfuel hsq hq
    have := matchAt_bound hne hq
    omega
  | succ n ih =>
    intro start q hfuel hsq hq
    unfold passPositions
    cases hf : bytesFind data pat start with
    | none => exact absurd hq (bytesFind_none hne hf q hsq)
    | some pos =>
      obtain ⟨hsp, hpm, hmin⟩ := bytesFind_some hf
      rcases Nat.eq_or_lt_of_le (Nat.le_of_not_lt
        (fun hql => hmin q hsq hql hq)) with rfl | hgt
      · exact List.mem_cons_self _ _
      · have hsep : pos + pat.length ≤ q := by
          by_contra hover
          exact no_self_overlap_disjoint hns hpm hq hgt (by omega)
        have hb := matchAt_bound hne hpm
        exact List.mem_cons_of_mem _ (ih (pos + pat.length) q (by omega) hsep hq)

theorem foldWrite_cons {newB cur : List Nat} {q : Nat} {ps : List Nat} :
    foldWrite newB cur (q :: ps) = foldWrite newB (listWrite cur q newB) ps := rfl

theorem foldWrite_length {newB : List Nat} :
    ∀ ps cur, (∀ q2 ∈ ps, q2 + newB.length ≤ cur.length) →
      (foldWrite newB cur ps).length = cur.length := by
  intro ps
  induction ps with
  | nil => intro cur _; rfl
  | cons q ps ih =>
    intro cur hb
    have hqb := hb q (List.mem_cons_self q ps)
    have hw : (listWrite cur q newB).length = cur.length := listWrite_length hqb
    rw [foldWrite_cons,
      ih (listWrite cur q newB) (fun q2 hq2 => by
        rw [hw]; exact hb q2 (List.mem_cons_of_mem _ hq2)), hw]

theorem foldWrite_preserve {newB v : List Nat} {p0 : Nat} :
    ∀ ps cur,
      (∀ q2 ∈ ps, q2 + newB.length ≤ cur.length) →
      (∀ q2 ∈ ps, ∀ i, p0 ≤ i → i < p0 + v.length → q2 ≤ i → i < q2 + newB.length →
        newB.getD (i - q2) 0 = v.getD (i - p0) 0) →
      (∀ i, p0 ≤ i → i < p0 + v.length → cur.getD i 0 = v.getD (i - p0) 0) →
      ∀ i, p0 ≤ i → i < p0 + v.length →
        (foldWrite newB cur ps).getD i 0 = v.getD (i - p0) 0 := by
  intro ps
  induction ps with
  | nil => intro cur _ _ hreg i h1 h2; exact hreg i h1 h2
  | cons q ps ih =>
    intro cur hb hcomp hreg i h1 h2
    rw [foldWrite_cons]
    have hqb := hb q (List.mem_cons_self q ps)
    have hw : (listWrite cur q newB).length = cur.length := listWrite_length hqb
    refine ih (listWrite cur q newB)
      (fun q2 hq2 => by rw [hw]; exact hb q2 (List.mem_cons_of_mem _ hq2))
      (fun q2 hq2 => hcomp q2 (List.mem_cons_of_mem _ hq2)) ?_ i h1 h2
    intro i' h1' h2'
    by_cases hc : q ≤ i' ∧ i' < q + newB.length
    · rw [listWrite_getD_mid hqb hc.1 hc.2]
      exact hcomp q (List.mem_cons_self q ps) i' h1' h2' hc.1 hc.2
    · push_neg at hc
      rcases Nat.lt_or_ge i' q with hlt | hge
      · rw [listWrite_getD_lt hqb hlt]
        exact hreg i' h1' h2'
      · rw [listWrite_getD_ge hqb (hc hge)]
        exact hreg i' h1' h2'

theorem foldWrite_establish {newB : List Nat} {p0 : Nat} :
    ∀ ps cur,
      (∀ q2 ∈ ps, q2 + newB.length ≤ cur.length) →
      (∀ q2 ∈ ps, ∀ i, p0 ≤ i → i < p0 + newB.length → q2 ≤ i → i < q2 + newB.length →
        newB.getD (i - q2) 0 = newB.getD (i - p0) 0) →
      p0 ∈ ps →
      ∀ i, p0 ≤ i → i < p0 + newB.length →
        (foldWrite newB cur ps).getD i 0 = newB.getD (i - p0) 0 := by
  intro ps
  induction ps with
  | nil => intro cur _ _ hmem; exact absurd hmem (List.not_mem_nil p0)
  | cons q ps ih =>
    intro cur hb hcomp hmem i h1 h2
    rw [foldWrite_cons]
    have hqb := hb q (List.mem_cons_self q ps)
    have hw : (listWrite cur q newB).length = cur.length := listWrite_length hqb
    by_cases hq : p0 ∈ ps
    · exact ih (listWrite cur q newB)
        (fun q2 hq2 => by rw [hw]; exact hb q2 (List.mem_cons_of_mem _ hq2))
        (fun q2 hq2 => hcomp q2 (List.mem_cons_of_mem _ hq2)) hq i h1 h2
    · have hpq : p0 = q := by
        rcases List.mem_cons.mp hmem with h | h
        · exact h
        · exact absurd h hq
      subst hpq
      refine foldWrite_preserve ps (listWrite cur p0 newB)
        (fun q2 hq2 => by rw [hw]; exact hb q2 (List.mem_cons_of_mem _ hq2))
        (fun q2 hq2 => hcomp q2 (List.mem_cons_of_mem _ hq2)) ?_ i h1 h2
      intro i' h1' h2'
      rw [listWrite_getD_mid hqb h1' h2']

theorem compat_agree {data P Pnew Q Qnew : List Nat}
    (hA : CompatA P Pnew Q Qnew) (hB : CompatB P Pnew Q Qnew)
    {p0 q : Nat} (hp : matchAt data P p0) (hq : matchAt data Q q) :
    ∀ i, p0 ≤ i → i < p0 + P.length → q ≤ i → i < q + Q.length →
      Qnew.getD (i - q) 0 = Pnew.getD (i - p0) 0 := by
  intro i h1 h2 h3 h4
  rcases Nat.lt_or_ge q p0 with hlt | hge
  · rcases hB (p0 - q) (by omega) (by omega) with ⟨j, hj1, hj2, hj3⟩ | hagree
    · exfalso
      have e1 := matchAt_getD hp j hj1
      have e2 := matchAt_getD hq (j + (p0 - q)) hj2
      have harith : p0 + j = q + (j + (p0 - q)) := by omega
      rw [harith] at e1
      exact hj3 (e1.symm.trans e2)
    · have hthis := hagree (i - p0) (by omega) (by omega)
      have harith : i - p0 + (p0 - q) = i - q := by omega
      rw [harith] at hthis
      exact hthis.symm
  · rcases hA (q - p0) (by omega) with ⟨j, hj1, hj2, hj3, hj4⟩ | hagree
    · exfalso
      have e1 := matchAt_getD hp j hj1
      have e2 := matchAt_getD hq (j - (q - p0)) hj3
      have harith : p0 + j = q + (j - (q - p0)) := by omega
      rw [harith] at e1
      exact hj4 (e1.symm.trans e2)
    · have hthis := hagree (i - p0) (by omega) (by omega) (by omega)
      have harith : i - p0 - (q - p0) = i - q := by omega
      rw [harith] at hthis
      exact hthis.symm

theorem passApply_length {data cur oldB newB : List Nat} (hne : oldB ≠ [])
    (hcl : cur.length = data.length) :
    (passApply data cur oldB newB).length = cur.length := by
  unfold passApply
  by_cases h : oldB.length = newB.length
  · rw [if_pos h]
    refine foldWrite_length _ cur (fun q2 hq2 => ?_)
    obtain ⟨-, hm⟩ := passPositions_sound _ _ q2 hq2
    have := matchAt_bound hne hm
    omega
  · rw [if_neg h]

theorem passApply_region_preserve {data cur oldB newB P Pnew : List Nat} {p0 : Nat}
    (hne : oldB ≠ [])
    (hA : CompatA P Pnew oldB newB) (hB : CompatB P Pnew oldB newB)
    (hPl : Pnew.length = P.length)
    (hcl : cur.length = data.length)
    (hp : matchAt data P p0)
    (hreg : ∀ i, p0 ≤ i → i < p0 + P.length → cur.getD i 0 = Pnew.getD (i - p0) 0) :
    ∀ i, p0 ≤ i → i < p0 + P.length →
      (passApply data cur oldB newB).getD i 0 = Pnew.getD (i - p0) 0 := by
  intro i h1 h2
  unfold passApply
  by_cases h : oldB.length = newB.length
  · rw [if_pos h]
    refine foldWrite_preserve (v := Pnew) _ cur ?_ ?_ ?_ i h1 (by omega)
    · intro q2 hq2
      obtain ⟨-, hm⟩ := passPositions_sound _ _ q2 hq2
      have := matchAt_bound hne hm
      omega
    · intro q2 hq2 i' hi1 hi2 hi3 hi4
      obtain ⟨-, hm⟩ := passPositions_sound _ _ q2 hq2
      exact compat_agree hA hB hp hm i' hi1 (by omega) hi3 (by omega)
    · intro i' hi1 hi2
      exact hreg i' hi1 (by omega)
  · rw [if_neg h]
    exact hreg i h1 h2

theorem passApply_region_establish {data cur oldB newB : List Nat} {p0 : Nat}
    (hne : oldB ≠ []) (hns : NoSelfOverlap oldB)
    (hlen : oldB.length = newB.length)
    (hA : CompatA oldB newB oldB newB) (hB : CompatB oldB newB oldB newB)
    (hcl : cur.length = data.length)
    (hp : matchAt data oldB p0) :
    ∀ i, p0 ≤ i → i < p0 + oldB.length →
      (passApply data cur oldB newB).getD i 0 = newB.getD (i - p0) 0 := by
  intro i h1 h2
  unfold passApply
  rw [if_pos hlen]
  refine foldWrite_establish _ cur ?_ ?_ ?_ i h1 (by omega)
  · intro q2 hq2
    obtain ⟨-, hm⟩ := passPositions_sound _ _ q2 hq2
    have := matchAt_bound hne hm
    omega
  · intro q2 hq2 i' hi1 hi2 hi3 hi4
    obtain ⟨-, hm⟩ := passPositions_sound _ _ q2 hq2
    exact compat_agree hA hB hp hm i' hi1 (by omega) hi3 (by omega)
  · exact passPositions_complete hne hns _ 0 p0 (by omega) (Nat.zero_le _) hp

theorem five_pass_regions (data : List Nat) (A A' U U' : List Nat)
    (hneA : A ≠ []) (hneU : U ≠ [])
    (hnsA : NoSelfOverlap A) (hnsU : NoSelfOverlap U)
    (hlA : A.length = A'.length) (hlU : U.length = U'.length)
    (hAA : CompatA A A' A A') (hBA : CompatB A A' A A')
    (hAU : CompatA A A' U U') (hBU : CompatB A A' U U')
    (hA0 : CompatA A A' (A ++ [0]) (A' ++ [0])) (hB0 : CompatB A A' (A ++ [0]) (A' ++ [0]))
    (hUU : CompatA U U' U U') (hBUU : CompatB U U' U U')
    (hU0 : CompatA U U' (A ++ [0]) (A' ++ [0])) (hBU0 : CompatB U U' (A ++ [0]) (A' ++ [0])) :
    (passApply data (passApply data (passApply data (passApply data (passApply data data
        A A') A A') U U') (A ++ [0]) (A' ++ [0])) (A ++ [0]) (A' ++ [0])).length =
      data.length ∧
    (∀ p, matchAt data A p → ∀ i, p ≤ i → i < p + A.length →
      (passApply data (passApply data (passApply data (passApply data (passApply data data
          A A') A A') U U') (A ++ [0]) (A' ++ [0])) (A ++ [0]) (A' ++ [0])).getD i 0 =
        A'.getD (i - p) 0) ∧
    (∀ q, matchAt data U q → ∀ i, q ≤ i → i < q + U.length →
      (passApply data (passApply data (passApply data (passApply data (passApply data data
          A A') A A') U U') (A ++ [0]) (A' ++ [0])) (A ++ [0]) (A' ++ [0])).getD i 0 =
        U'.getD (i - q) 0) := by
  have hneA0 : A ++ [0] ≠ [] := by simp
  have hl1 : (passApply data data A A').length = data.length := passApply_length hneA rfl
  have hl2 : (passApply data (passApply data data A A') A A').length = data.length :=
    (passApply_length hneA hl1).trans hl1
  have hl3 : (passApply data (passApply data (passApply data data A A') A A') U U').length =
      data.length :=
    (passApply_length hneU hl2).trans hl2
  have hl4 : (passApply data (passApply data (passApply data (passApply data data A A') A A')
      U U') (A ++ [0]) (A' ++ [0])).length = data.length :=
    (passApply_length hneA0 hl3).trans hl3
  have hl5 : (passApply data (passApply data (passApply data (passApply data (passApply data
      data A A') A A') U U') (A ++ [0]) (A' ++ [0])) (A ++ [0]) (A' ++ [0])).length =
      data.length :=
    (passApply_length hneA0 hl4).trans hl4
  refine ⟨hl5, ?_, ?_⟩
  · intro p hp i h1 h2
    have r1 := @passApply_region_establish data data A A' p hneA hnsA hlA hAA hBA rfl hp
    have r2 := passApply_region_preserve hneA hAA hBA hlA.symm hl1 hp r1
    have r3 := passApply_region_preserve hneU hAU hBU hlA.symm hl2 hp r2
    have r4 := passApply_region_preserve hneA0 hA0 hB0 hlA.symm hl3 hp r3
    have r5 := passApply_region_preserve hneA0 hA0 hB0 hlA.symm hl4 hp r4
    exact r5 i h1 h2
  · intro q hq i h1 h2
    have r3 := @passApply_region_establish data
      (passApply data (passApply data data A A') A A') U U' q
      hneU hnsU hlU hUU hBUU hl2 hq
    have r4 := passApply_region_preserve hneA0 hU0 hBU0 hlU.symm hl3 hq r3
    have r5 := passApply_region_preserve hneA0 hU0 hBU0 hlU.symm hl4 hq r4
    exact r5 i h1 h2

/-- C3 (amended): for the token pair `"F711BXXS8HXF2" → "F711BXXSFJYGB"`
(13 ASCII characters each), `replace_all_occurrences` succeeds on every
buffer, preserves the buffer length, overwrites every ASCII/UTF-8
occurrence (identical byte patterns) and every UTF-16LE occurrence of the
old token with the corresponding encoding of the new token, and returns as
its count the sum of the five per-pass match counts — each pass counting
the non-overlapping occurrences of its encoded pattern in the *original*
buffer, so coincident ASCII and UTF-8 (and NUL-terminated) occurrences are
counted once per pass, not once overall. -/
theorem replace_all_scenario (data : List Nat) :
    ∃ out : List Nat,
      replace_all_occurrences data "F711BXXS8HXF2" "F711BXXSFJYGB" =
        some (out,
          (passPositions data (strBytes "F711BXXS8HXF2") (data.length + 1) 0).length +
            (passPositions data (strBytes "F711BXXS8HXF2") (data.length + 1) 0).length +
            (passPositions data (utf16leEncode "F711BXXS8HXF2") (data.length + 1) 0).length +
            (passPositions data (strBytes "F711BXXS8HXF2" ++ [0]) (data.length + 1) 0).length +
            (passPositions data (strBytes "F711BXXS8HXF2" ++ [0]) (data.length + 1) 0).length) ∧
      out.length = data.length ∧
      (∀ p, matchAt data (strBytes "F711BXXS8HXF2") p →
        ∀ j, j < 13 → out.getD (p + j) 0 = (strBytes "F711BXXSFJYGB").getD j 0) ∧
      (∀ q, matchAt data (utf16leEncode "F711BXXS8HXF2") q →
        ∀ j, j < 26 → out.getD (q + j) 0 = (utf16leEncode "F711BXXSFJYGB").getD j 0) := by
  have hu8o : utf8Encode "F711BXXS8HXF2" = strBytes "F711BXXS8HXF2" := by decide
  have hu8n : utf8Encode "F711BXXSFJYGB" = strBytes "F711BXXSFJYGB" := by decide
  have hc := replace_all_passes data "F711BXXS8HXF2" "F711BXXSFJYGB"
    (by decide) (by decide) (by decide)
    (strBytes "F711BXXS8HXF2") (strBytes "F711BXXSFJYGB") (by decide) (by decide)
  rw [hu8o, hu8n] at hc
  have hcnt1 : passCnt data (strBytes "F711BXXS8HXF2") (strBytes "F711BXXSFJYGB") =
      (passPositions data (strBytes "F711BXXS8HXF2") (data.length + 1) 0).length := by
    unfold passCnt
    rw [if_pos (by decide)]
  have hcnt3 : passCnt data (utf16leEncode "F711BXXS8HXF2") (utf16leEncode "F711BXXSFJYGB") =
      (passPositions data (utf16leEncode "F711BXXS8HXF2") (data.length + 1) 0).length := by
    unfold passCnt
    rw [if_pos (by decide)]
  have hcnt4 : passCnt data (strBytes "F711BXXS8HXF2" ++ [0])
      (strBytes "F711BXXSFJYGB" ++ [0]) =
      (passPositions data (strBytes "F711BXXS8HXF2" ++ [0]) (data.length + 1) 0).length := by
    unfold passCnt
    rw [if_pos (by decide)]
  rw [hcnt1, hcnt3, hcnt4] at hc
  obtain ⟨hlen5, hregA, hregU⟩ := five_pass_regions data
    (strBytes "F711BXXS8HXF2") (strBytes "F711BXXSFJYGB")
    (utf16leEncode "F711BXXS8HXF2") (utf16leEncode "F711BXXSFJYGB")
    (by decide) (by decide) (by decide) (by decide) (by decide) (by decide)
    (by decide) (by decide) (by decide) (by decide) (by decide) (by decide)
    (by decide) (by decide) (by decide) (by decide)
  refine ⟨_, hc, hlen5, ?_, ?_⟩
  · intro p hp j hj
    have hA13 : (strBytes "F711BXXS8HXF2").length = 13 := by decide
    have hv := hregA p hp (p + j) (by omega) (by omega)
    have harith : p + j - p = j := by omega
    rw [harith] at hv
    exact hv
  · intro q hq j hj
    have hU26 : (utf16leEncode "F711BXXS8HXF2").length = 26 := by decide
    have hv := hregU q hq (q + j) (by omega) (by omega)
    have harith : q + j - q = j := by omega
    rw [harith] at hv
    exact hv

/-- C3 witness: a concrete instance of `replace_all_scenario` on a buffer
with an ASCII occurrence at 0 and a UTF-16LE occurrence at 14. -/
theorem replace_all_scenario_witness :
    ∃ out : List Nat,
      replace_all_occurrences c3wit "F711BXXS8HXF2" "F711BXXSFJYGB" =
        some (out,
          (passPositions c3wit (strBytes "F711BXXS8HXF2") (c3wit.length + 1) 0).length +
            (passPositions c3wit (strBytes "F711BXXS8HXF2") (c3wit.length + 1) 0).length +
            (passPositions c3wit (utf16leEncode "F711BXXS8HXF2") (c3wit.length + 1) 0).length +
            (passPositions c3wit (strBytes "F711BXXS8HXF2" ++ [0]) (c3wit.length + 1) 0).length +
            (passPositions c3wit (strBytes "F711BXXS8HXF2" ++ [0]) (c3wit.length + 1) 0).length) ∧
      out.length = c3wit.length ∧
      out.getD 0 0 = (strBytes "F711BXXSFJYGB").getD 0 0 ∧
      out.getD 14 0 = (utf16leEncode "F711BXXSFJYGB").getD 0 0 := by
  obtain ⟨out, h1, h2, h3, h4⟩ := replace_all_scenario c3wit
  exact ⟨out, h1, h2, by simpa using h3 0 (by decide) 0 (by decide),
    by simpa using h4 14 (by decide) 0 (by decide)⟩

/-- C3 counterexample: on the 14-byte buffer holding one ASCII occurrence
of the old token followed by a NUL, the code reports count 4 (the ASCII,
UTF-8, ASCII+NUL and UTF-8+NUL passes each count the same occurrence),
while the buffer contains one ASCII (= UTF-8) occurrence and no UTF-16LE
occurrence — so the reported count is neither the number of distinct
occurrences (1) nor the per-encoding total over ASCII, UTF-8 and UTF-16LE
(2). -/
theorem replace_all_count_not_occurrences :
    replace_all_occurrences c3buf "F711BXXS8HXF2" "F711BXXSFJYGB" =
      some (strBytes "F711BXXSFJYGB" ++ [0], 4) ∧
    occCount c3buf (strBytes "F711BXXS8HXF2") = 1 ∧
    occCount c3buf (utf8Encode "F711BXXS8HXF2") = 1 ∧
    occCount c3buf (utf16leEncode "F711BXXS8HXF2") = 0 ∧
    (4 : Nat) ≠ 1 + 1 + 0 ∧ (4 : Nat) ≠ 1 :=
  ⟨by decide, by decide, by decide, by decide, by decide, by decide⟩

-- ### C9: lexicographic order and the detection priority chain

theorem lexLeB_total : ∀ x y : List Nat, lexLeB x y = true ∨ lexLeB y x = true := by
  intro x
  induction x with
  | nil => intro y; left; rfl
  | cons a as ih =>
    intro y
    cases y with
    | nil => right; rfl
    | cons b bs =>
      rcases Nat.lt_trichotomy a b with h | h | h
      · left
        show (if a < b then true else if b < a then false else lexLeB as bs) = true
        rw [if_pos h]
      · subst h
        rcases ih bs with h2 | h2
        · left
          show (if a < a then true else if a < a then false else lexLeB as bs) = true
          rw [if_neg (lt_irrefl a), if_neg (lt_irrefl a)]
          exact h2
        · right
          show (if a < a then true else if a < a then false else lexLeB bs as) = true
          rw [if_neg (lt_irrefl a), if_neg (lt_irrefl a)]
          exact h2
      · right
        show (if b < a then true else if a < b then false else lexLeB bs as) = true
        rw [if_pos h]

theorem lexLeB_trans :
    ∀ x y z : List Nat, lexLeB x y = true → lexLeB y z = true → lexLeB x z = true := by
  intro x
  induction x with
  | nil => intro y z _ _; rfl
  | cons a as ih =>
    intro y z hxy hyz
    cases y with
    | nil => exact absurd hxy (by simp [lexLeB])
    | cons b bs =>
      cases z with
      | nil => exact absurd hyz (by simp [lexLeB])
      | cons c cs =>
        revert hxy hyz
        show (if a < b then true else if b < a then false else lexLeB as bs) = true →
          (if b < c then true else if c < b then false else lexLeB bs cs) = true →
          (if a < c then true else if c < a then false else lexLeB as cs) = true
        intro hxy hyz
        rcases Nat.lt_trichotomy a b with hab | hab | hab
        · rcases Nat.lt_trichotomy b c with hbc | hbc | hbc
          · rw [if_pos (by omega : a < c)]
          · rw [if_pos (by omega : a < c)]
          · rw [if_neg (by omega : ¬ b < c), if_pos hbc] at hyz
            exact absurd hyz (by simp)
        · subst hab
          rw [if_neg (lt_irrefl a), if_neg (lt_irrefl a)] at hxy
          rcases Nat.lt_trichotomy a c with hac | hac | hac
          · rw [if_pos hac]
          · subst hac
            rw [if_neg (lt_irrefl a), if_neg (lt_irrefl a)] at hyz
            rw [if_neg (lt_irrefl a), if_neg (lt_irrefl a)]
            exact ih bs cs hxy hyz
          · rw [if_neg (by omega : ¬ a < c), if_pos hac] at hyz
            exact absurd hyz (by simp)
        · rw [if_neg (by omega : ¬ a < b), if_pos hab] at hxy
          exact absurd hxy (by simp)

theorem mem_insertStr (x a : String) :
    ∀ l, a ∈ insertStr x l ↔ a = x ∨ a ∈ l := by
  intro l
  induction l with
  | nil => simp [insertStr]
  | cons y ys ih =>
    unfold insertStr
    by_cases h : lexLeB (strBytes x) (strBytes y) = true
    · rw [if_pos h]
      exact List.mem_cons
    · rw [if_neg h]
      simp only [List.mem_cons, ih]
      tauto

theorem pairwise_insertStr (x : String) :
    ∀ l, List.Pairwise strR l → List.Pairwise strR (insertStr x l) := by
  intro l
  induction l with
  | nil => intro _; exact List.pairwise_singleton _ _
  | cons y ys ih =>
    intro hp
    obtain ⟨hy, hys⟩ := List.pairwise_cons.mp hp
    unfold insertStr
    by_cases h : lexLeB (strBytes x) (strBytes y) = true
    · rw [if_pos h]
      refine List.pairwise_cons.mpr ⟨?_, hp⟩
      intro b hb
      rcases List.mem_cons.mp hb with rfl | hb
      · exact h
      · exact lexLeB_trans _ _ _ h (hy b hb)
    · rw [if_neg h]
      refine List.pairwise_cons.mpr ⟨?_, ih hys⟩
      intro b hb
      rcases (mem_insertStr x b ys).mp hb with rfl | hb
      · exact (lexLeB_total (strBytes y) (strBytes b)).resolve_right h
      · exact hy b hb

theorem pairwise_sortStrs : ∀ l, List.Pairwise strR (sortStrs l) := by
  intro l
  induction l with
  | nil => exact List.Pairwise.nil
  | cons x xs ih => exact pairwise_insertStr x _ ih

theorem detectModels_pairwise (data : List Nat) :
    List.Pairwise strR (detectModels data) := by
  unfold detectModels
  exact pairwise_sortStrs _

theorem prefHit_none {models : List String} {preferred : Option String}
    (hpref : ∀ p, preferred = some p → p = "" ∨ p ∉ models) :
    prefHitOf models preferred = none := by
  cases preferred with
  | none => rfl
  | some p =>
    show (if decide (p ≠ "") && decide (p ∈ models) then some p else none) = none
    rcases hpref p rfl with h | h
    · rw [if_neg (by simp [h])]
    · rw [if_neg (by simp [h])]

theorem prefHit_some {models : List String} {p : String}
    (hne : p ≠ "") (hmem : p ∈ models) :
    prefHitOf models (some p) = some p := by
  show (if decide (p ≠ "") && decide (p ∈ models) then some p else none) = some p
  rw [if_pos (by simp [hne, hmem])]

/-- C9: `detect_device_models_in_file` is total and follows the three-tier
priority: empty result when the pattern scan finds nothing (whatever the
other signals); the preferred string first when it is a candidate; else the
record's device model first when it is a candidate; else the sorted
candidate list itself, whose head is lexicographically least; in the first
two tiers the head is followed by the other candidates in sorted order. -/
theorem detect_characterization (data : List Nat) (preferred : Option String) :
    (detectModels data = [] → detect_device_models_in_file data preferred = []) ∧
    (∀ p, preferred = some p → p ≠ "" → p ∈ detectModels data →
      detect_device_models_in_file data preferred =
        p :: (detectModels data).filter (fun m => decide (m ≠ p))) ∧
    (∀ sm, (∀ p, preferred = some p → p = "" ∨ p ∉ detectModels data) →
      signerModel data = some sm → sm ∈ detectModels data →
      detect_device_models_in_file data preferred =
        sm :: (detectModels data).filter (fun m => decide (m ≠ sm))) ∧
    ((∀ p, preferred = some p → p = "" ∨ p ∉ detectModels data) →
      (∀ sm, signerModel data = some sm → sm ∉ detectModels data) →
      detect_device_models_in_file data preferred = detectModels data) ∧
    (∀ m rest, detectModels data = m :: rest →
      ∀ y ∈ detectModels data, y = m ∨ strR m y) := by
  refine ⟨?_, ?_, ?_, ?_, ?_⟩
  · intro h
    have hp0 : prefHitOf [] preferred = none :=
      prefHit_none (fun p _ => Or.inr (List.not_mem_nil p))
    cases hs : signerModel data with
    | none => simp [detect_device_models_in_file, h, hp0, hs]
    | some sm => simp [detect_device_models_in_file, h, hp0, hs]
  · intro p hpref hne hmem
    subst hpref
    simp [detect_device_models_in_file, prefHit_some hne hmem]
  · intro sm hpref hsig hmem
    have hd : decide (sm ∈ detectModels data) = true := by simp [hmem]
    simp [detect_device_models_in_file, prefHit_none hpref, hsig, hd]
  · intro hpref hsig
    cases hs : signerModel data with
    | none =>
      cases hm : detectModels data with
      | nil =>
        have hp0 : prefHitOf [] preferred = none :=
          prefHit_none (fun p _ => Or.inr (List.not_mem_nil p))
        simp [detect_device_models_in_file, hm, hp0, hs]
      | cons m rest =>
        have hie : (detectModels data).isEmpty = false := by rw [hm]; rfl
        simp [detect_device_models_in_file, prefHit_none hpref, hs, hie]
        exact hm
    | some sm =>
      have hnm : decide (sm ∈ detectModels data) = false := by simp [hsig sm hs]
      cases hm : detectModels data with
      | nil =>
        have hp0 : prefHitOf [] preferred = none :=
          prefHit_none (fun p _ => Or.inr (List.not_mem_nil p))
        simp [detect_device_models_in_file, hm, hp0, hs]
      | cons m rest =>
        have hie : (detectModels data).isEmpty = false := by rw [hm]; rfl
        simp [detect_device_models_in_file, prefHit_none hpref, hs, hie, hnm]
        exact hm
  · intro m rest heq y hy
    have hp := detectModels_pairwise data
    rw [heq] at hp hy
    rcases List.mem_cons.mp hy with rfl | hy
    · exact Or.inl rfl
    · exact Or.inr ((List.pairwise_cons.mp hp).1 y hy)

/-- C9 witness: concrete instances of `detect_characterization` — the
preferred-model tier on a buffer with one candidate, and the empty result
on an empty buffer. -/
theorem detect_characterization_witness :
    detect_device_models_in_file c9buf (some "A123BC000000") = ["A123BC000000"] ∧
    detect_device_models_in_file [] none = [] := by
  constructor
  · have h := (detect_characterization c9buf (some "A123BC000000")).2.1
      "A123BC000000" rfl (by decide) (by decide)
    exact h.trans (by decide)
  · exact (detect_characterization [] none).1 (by decide)
